import Mathlib

set_option maxHeartbeats 1000000

/-!
Shallow embedding of the memctx memory-context library (the `contexts`
package: the context-manager file and `contexts/memctx.go`): a context
manager hands out shared, reference-counted `MemoryContext` values keyed
by a context type; each context owns typed object pools and child
contexts, and an idle reaper closes inactive contexts.

Locks (`sync.RWMutex`), channels (`stopChan`) and goroutines are not
modelled; the embedding is the sequential semantics of each operation.
`time.Time` is modelled as a `Nat` instant and `time.Duration` as an
`Int` in nanoseconds; `time.Now()` becomes an explicit `now` argument.
Go maps become association lists; a `nil` Go map is `Option.none`
(reads on a nil map miss, writes on a nil map panic).  Reference counts
(`int32` in Go) are modelled as `Int`: every mutation in the source
either decrements a positive count or increments a count that the
configured ceiling keeps far below the `int32` range, so wrap-around is
not modelled.
-/

/-- Error values declared in the `contexts` package (`errors.New`) plus
the `fmt.Errorf` wrappers used by the source.  `poolCloseFailed` stands
for an opaque error produced by the external pool collaborator;
`errorClosingContext` models "error closing context %s: %v",
`failedClosePool` models "failed to close pool: %w", `failedCloseChild`
models "failed to close child context: %w", `newPoolFailed` models
"NewPool failed: %w", and `nilContext` models "cannot return nil
context". -/
inductive GoErr : Type where
  | contextNotFound
  | contextInUse
  | invalidContextType
  | contextClosed
  | contextManagerClosed
  | maxReferencesReached
  | invalidConfig
  | nilContext
  | poolCloseFailed
  | failedClosePool (e : GoErr)
  | failedCloseChild (e : GoErr)
  | newPoolFailed (e : GoErr)
  | errorClosingContext (k : String) (e : GoErr)
  deriving DecidableEq, Repr

/-- Objects handed out by pools; `reflect.TypeOf obj` is the `ty`
field (runtime types are modelled as `Nat`). -/
structure Obj : Type where
  ty : Nat
  deriving DecidableEq, Repr

/-- The external pool collaborator (`memctx/pool`), out of scope of the
core spec: modelled by its observable interface state.  `closeFails`
encodes whether its `Close` reports an error. -/
structure Pool : Type where
  objTy : Nat
  items : List Obj
  closed : Bool
  closeFails : Bool
  deriving DecidableEq, Repr

/-- Model of `pool.Get`: hands out a pooled object, allocating a fresh
one of the pool's object type when the pool is empty. -/
def Pool.get (p : Pool) : Obj × Pool :=
  match p.items with
  | [] => (⟨p.objTy⟩, p)
  | o :: rest => (o, { p with items := rest })

/-- Model of `pool.Put`. -/
def Pool.put (p : Pool) (o : Obj) : Pool :=
  { p with items := p.items ++ [o] }

/-- Model of `pool.Close`: fails (leaving the pool as is) when the
external collaborator reports an error, otherwise marks the pool
closed. -/
def Pool.Close (p : Pool) : Pool × Option GoErr :=
  if p.closeFails then (p, some GoErr.poolCloseFailed)
  else ({ p with closed := true }, none)

/-- Scalar fields of `MemoryContext` (memctx.go): `active`, `closed`,
`referenceCount`, `contextType`, `pools`, `createdAt`, `lastUsed`.  The
`parent` back-pointer is stored by the source but never read by any
operation, so it is omitted from the embedding. -/
structure ContextData : Type where
  active : Bool
  closed : Bool
  referenceCount : Int
  contextType : String
  pools : List (Nat × Pool)
  createdAt : Nat
  lastUsed : Nat
  deriving DecidableEq, Repr

/-- A `MemoryContext` together with its owned `children` subtrees. -/
inductive MemoryContext : Type where
  | node : ContextData → List MemoryContext → MemoryContext

def MemoryContext.data : MemoryContext → ContextData
  | .node d _ => d

def MemoryContext.children : MemoryContext → List MemoryContext
  | .node _ ch => ch

def MemoryContext.active (c : MemoryContext) : Bool := c.data.active

def MemoryContext.closed (c : MemoryContext) : Bool := c.data.closed

def MemoryContext.referenceCount (c : MemoryContext) : Int := c.data.referenceCount

def MemoryContext.contextType (c : MemoryContext) : String := c.data.contextType

def MemoryContext.pools (c : MemoryContext) : List (Nat × Pool) := c.data.pools

def MemoryContext.createdAt (c : MemoryContext) : Nat := c.data.createdAt

def MemoryContext.lastUsed (c : MemoryContext) : Nat := c.data.lastUsed

/-- Argument of `NewMemoryContext`; the `Parent` field of the Go struct
is omitted for the same reason as `MemoryContext.parent`. -/
structure MemoryContextConfig : Type where
  contextType : String
  deriving DecidableEq, Repr

/-- Model of `NewMemoryContext`: zero-valued flags and count, empty
pools, both timestamps set to `now` (`time.Now()`). -/
def NewMemoryContext (config : MemoryContextConfig) (now : Nat) : MemoryContext :=
  .node { active := false, closed := false, referenceCount := 0,
          contextType := config.contextType, pools := [],
          createdAt := now, lastUsed := now } []

/-- Model of `MemoryContext.RegisterChild`: appends the child; the
source performs no closed-check here. -/
def MemoryContext.RegisterChild : MemoryContext → MemoryContext → MemoryContext
  | .node d ch, child => .node d (ch ++ [child])

/-- Model of `MemoryContext.allocate`: a fresh context sharing the
receiver's context type. -/
def MemoryContext.allocate (mc : MemoryContext) (now : Nat) : MemoryContext :=
  NewMemoryContext { contextType := mc.contextType } now

/-- Model of `MemoryContext.CreateChild`: rejects a closed receiver,
otherwise allocates and registers a child. -/
def MemoryContext.CreateChild (mc : MemoryContext) (now : Nat) : Except GoErr MemoryContext :=
  if mc.closed then .error .contextClosed
  else .ok (mc.RegisterChild (mc.allocate now))

/-- First-match lookup in the pools map. -/
def poolsLookup : List (Nat × Pool) → Nat → Option Pool
  | [], _ => none
  | (t, p) :: rest, ty => if t = ty then some p else poolsLookup rest ty

/-- Go map assignment on the pools map: replace the entry for the key,
or add one. -/
def poolsUpdate : List (Nat × Pool) → Nat → Pool → List (Nat × Pool)
  | [], ty, p => [(ty, p)]
  | (t, p') :: rest, ty, p =>
    if t = ty then (t, p) :: rest else (t, p') :: poolsUpdate rest ty p

/-- Replace the pool stored for `ty` (pointer mutation of a pool held
in the map becomes a functional map update). -/
def MemoryContext.setPool : MemoryContext → Nat → Pool → MemoryContext
  | .node d ch, ty, p => .node { d with pools := poolsUpdate d.pools ty p } ch

/-- Model of `MemoryContext.CreatePool`; the outcome of the external
`pool.NewPool` call is passed in as the `newPool` argument. -/
def MemoryContext.CreatePool (mc : MemoryContext) (objectType : Nat)
    (newPool : Except GoErr Pool) : Except GoErr MemoryContext :=
  if mc.closed then .error .contextClosed
  else match newPool with
    | .error e => .error (.newPoolFailed e)
    | .ok p =>
      match mc with
      | .node d ch => .ok (.node { d with pools := poolsUpdate d.pools objectType p } ch)

/-- Model of `MemoryContext.Acquire`: `nil` when closed or no pool for
that type, otherwise delegates to the pool's `Get`.  The second
component is the context afterwards (the pool mutated in place). -/
def MemoryContext.Acquire (mm : MemoryContext) (objectType : Nat) : Option Obj × MemoryContext :=
  if mm.closed then (none, mm)
  else match poolsLookup mm.pools objectType with
    | none => (none, mm)
    | some p =>
      match p.get with
      | (o, p') => (some o, mm.setPool objectType p')

/-- Model of `MemoryContext.Release`: false when closed, when no pool
exists for the type, or when the object's runtime type mismatches;
otherwise returns the object to the pool. -/
def MemoryContext.Release (mm : MemoryContext) (objectType : Nat) (obj : Obj) :
    Bool × MemoryContext :=
  if mm.closed then (false, mm)
  else match poolsLookup mm.pools objectType with
    | none => (false, mm)
    | some p =>
      if obj.ty ≠ objectType then (false, mm)
      else (true, mm.setPool objectType (p.put obj))

/-- Model of `MemoryContext.GetPool`. -/
def MemoryContext.GetPool (mm : MemoryContext) (objectType : Nat) : Option Pool :=
  poolsLookup mm.pools objectType

/-- Close every pool of the map in order, fail-fast: on the first pool
error the remaining pools are left untouched and the error is
returned (pools already closed keep their mutated state, as the Go
pools are mutated through pointers held by the map). -/
def closePools : List (Nat × Pool) → List (Nat × Pool) × Option GoErr
  | [] => ([], none)
  | (t, p) :: rest =>
    match p.Close with
    | (p', some e) => ((t, p') :: rest, some e)
    | (p', none) =>
      match closePools rest with
      | (rest', e) => ((t, p') :: rest', e)

mutual

/-- Model of `MemoryContext.Close`: returns `nil` at once on an
already-closed context; otherwise closes every pool (fail-fast,
wrapping the first error), then every child (fail-fast, wrapping the
first error), then clears pools and children and sets
`closed := true`, `active := false`, `referenceCount := 0`. -/
def MemoryContext.Close : MemoryContext → MemoryContext × Option GoErr
  | .node d ch =>
    if d.closed then (.node d ch, none)
    else
      match closePools d.pools with
      | (ps', some e) => (.node { d with pools := ps' } ch, some (.failedClosePool e))
      | (ps', none) =>
        match closeChildren ch with
        | (ch', some e) => (.node { d with pools := ps' } ch', some (.failedCloseChild e))
        | (_, none) =>
          (.node { d with pools := [], closed := true, active := false,
                          referenceCount := 0 } [], none)

/-- The child-closing loop of `MemoryContext.Close`, fail-fast: on the
first child error the remaining children are left untouched. -/
def closeChildren : List MemoryContext → List MemoryContext × Option GoErr
  | [] => ([], none)
  | c :: cs =>
    match MemoryContext.Close c with
    | (c', some e) => (c' :: cs, some e)
    | (c', none) =>
      match closeChildren cs with
      | (cs', e) => (c' :: cs', e)

end

/-- Manager-wide configuration (`ContextConfig` in the source):
`MaxReferences` is an `int32`, the durations are `time.Duration`
(int64 nanoseconds), all modelled as `Int`. -/
structure ContextConfig : Type where
  MaxReferences : Int
  MaxIdleTime : Int
  CleanupInterval : Int
  deriving DecidableEq, Repr

/-- Source constants (durations in nanoseconds: 5 minutes and
1 minute). -/
def DefaultMaxReferences : Int := 10

def DefaultMaxIdleTime : Int := 300000000000

def DefaultCleanupInterval : Int := 60000000000

/-- Model of `newDefaultConfig`. -/
def newDefaultConfig : ContextConfig :=
  { MaxReferences := DefaultMaxReferences, MaxIdleTime := DefaultMaxIdleTime,
    CleanupInterval := DefaultCleanupInterval }

/-- The manager state (`ContextManager`): `ctxCache` and `config` are
pointers/maps that `Close` sets to `nil`, hence the `Option`s; the
`stopChan` channel and the mutex are not modelled. -/
structure ContextManager : Type where
  ctxCache : Option (List (String × MemoryContext))
  config : Option ContextConfig
  closed : Bool

/-- Model of `NewContextManager`: a nil config argument is replaced by
the defaults; the cleanup goroutine it may start is modelled by
invoking `cleanupIdleContexts` explicitly at chosen instants. -/
def NewContextManager (config : Option ContextConfig) : ContextManager :=
  { ctxCache := some [], config := some (config.getD newDefaultConfig), closed := false }

/-- First-match lookup in the registry map. -/
def lookupCtx : List (String × MemoryContext) → String → Option MemoryContext
  | [], _ => none
  | (k, v) :: rest, key => if k = key then some v else lookupCtx rest key

/-- Replace the registry entry for `key` (pointer mutation of a context
held in the map becomes a functional map update). -/
def updateCtx : List (String × MemoryContext) → String → MemoryContext →
    List (String × MemoryContext)
  | [], _, _ => []
  | (k, v) :: rest, key, v' =>
    if k = key then (k, v') :: rest else (k, v) :: updateCtx rest key v'

/-- Model of `delete(cm.ctxCache, ctxType)`. -/
def eraseCtx : List (String × MemoryContext) → String → List (String × MemoryContext)
  | [], _ => []
  | (k, v) :: rest, key => if k = key then rest else (k, v) :: eraseCtx rest key

/-- Registry lookup through the manager (a nil map has no entries). -/
def ContextManager.cacheLookup (cm : ContextManager) (key : String) : Option MemoryContext :=
  match cm.ctxCache with
  | none => none
  | some cache => lookupCtx cache key

/-- The keys of the registry are pairwise distinct (true of every Go
map; stated as a hypothesis where a proof walks the association
list). -/
def ContextManager.cacheKeysNodup (cm : ContextManager) : Prop :=
  match cm.ctxCache with
  | none => True
  | some cache => (cache.map Prod.fst).Nodup

/-- Outcome of `GetOrCreateContext`: on success the updated manager,
the shared context value and the `wasExisting` flag; `panicked` marks a
Go runtime panic (assignment to an entry in a nil map, or a nil
`cm.config` dereference). -/
inductive GocOutcome : Type where
  | ok (cm : ContextManager) (ctx : MemoryContext) (wasExisting : Bool)
  | failed (e : GoErr)
  | panicked

/-- Model of `ContextManager.GetOrCreateContext`. -/
def ContextManager.GetOrCreateContext (cm : ContextManager) (ctxType : String)
    (config : MemoryContextConfig) (now : Nat) : GocOutcome :=
  if ctxType = "" then .failed .invalidContextType
  else match cm.ctxCache with
    | none => .panicked
    | some cache =>
      match lookupCtx cache ctxType with
      | none =>
        match NewMemoryContext config now with
        | .node d ch =>
          let ctx : MemoryContext := .node { d with active := true, referenceCount := 1 } ch
          .ok { cm with ctxCache := some (cache ++ [(ctxType, ctx)]) } ctx false
      | some ctx =>
        if ctx.closed then .failed .contextClosed
        else match cm.config with
          | none => .panicked
          | some cfg =>
            if 0 < cfg.MaxReferences ∧ cfg.MaxReferences ≤ ctx.referenceCount then
              .failed .maxReferencesReached
            else
              match ctx with
              | .node d ch =>
                let ctx' : MemoryContext :=
                  .node { d with referenceCount := d.referenceCount + 1 } ch
                .ok { cm with ctxCache := some (updateCtx cache ctxType ctx') } ctx' true

/-- Model of `ContextManager.ReturnContext`: the method reads no
manager state, only the context handed back (a `nil` argument is
`Option.none`).  The count is decremented only when positive, then
`active` is recomputed as `referenceCount > 0`. -/
def ReturnContext (ctx : Option MemoryContext) : Except GoErr MemoryContext :=
  match ctx with
  | none => .error .nilContext
  | some (.node d ch) =>
    if d.closed then .error .contextClosed
    else
      let rc := if 0 < d.referenceCount then d.referenceCount - 1 else d.referenceCount
      .ok (.node { d with referenceCount := rc, active := decide (0 < rc) } ch)

/-- Model of `ContextManager.CloseContext` (the `locked` parameter only
chooses whether the mutex is taken and is dropped with the locks): a
missing entry fails with `ContextNotFound`; a positive reference count
fails with `ContextInUse` leaving everything unchanged; otherwise the
context's recursive `Close` runs — on success the entry is deleted, on
failure the wrapped error is returned and the (partially closed)
context stays registered. -/
def ContextManager.CloseContext (cm : ContextManager) (ctxType : String) :
    ContextManager × Option GoErr :=
  match cm.ctxCache with
  | none => (cm, some .contextNotFound)
  | some cache =>
    match lookupCtx cache ctxType with
    | none => (cm, some .contextNotFound)
    | some ctx =>
      if 0 < ctx.referenceCount then (cm, some .contextInUse)
      else
        match MemoryContext.Close ctx with
        | (_, none) => ({ cm with ctxCache := some (eraseCtx cache ctxType) }, none)
        | (ctx', some e) =>
          ({ cm with ctxCache := some (updateCtx cache ctxType ctx') },
           some (.errorClosingContext ctxType e))

/-- Model of `ContextManager.ValidateContext`. -/
def ContextManager.ValidateContext (ctx : Option MemoryContext) : Bool :=
  match ctx with
  | none => false
  | some c => !c.closed && c.active

/-- Model of `cleanupIdleContexts`, one reaper tick at instant `now`:
for every entry whose context is inactive and idle longer than
`MaxIdleTime`, attempt a locked-context close; an individual close
error is printed and ignored.  With a nil cache or nil config (a
closed manager) the loop body never runs. -/
def ContextManager.cleanupIdleContexts (cm : ContextManager) (now : Nat) : ContextManager :=
  match cm.ctxCache, cm.config with
  | some cache, some cfg =>
    cache.foldl
      (fun acc e =>
        if e.2.active = false ∧ cfg.MaxIdleTime < (now : Int) - (e.2.lastUsed : Int) then
          (acc.CloseContext e.1).1
        else acc)
      cm
  | _, _ => cm

/-- Outcome of `ContextManager.Close`: the manager state is carried on
failure too, since the source mutates the receiver in place. -/
inductive MgrCloseOutcome : Type where
  | ok (cm : ContextManager)
  | failed (cm : ContextManager) (e : GoErr)
  | panicked

/-- The shutdown loop of `ContextManager.Close`: close every registry
entry in turn, aborting on the first error. -/
def ContextManager.closeAll : ContextManager → List (String × MemoryContext) →
    ContextManager × Option GoErr
  | cm, [] => (cm, none)
  | cm, (k, _) :: rest =>
    match cm.CloseContext k with
    | (cm', none) => ContextManager.closeAll cm' rest
    | (cm', some e) => (cm', some (.errorClosingContext k e))

/-- Model of `ContextManager.Close`: an already-closed manager fails
with `ContextManagerClosed`; otherwise the reaper is stopped (channel
not modelled), every registered context is closed (aborting on the
first error), and on success the cache, config and stop channel are
released and the manager is marked closed. -/
def ContextManager.Close (cm : ContextManager) : MgrCloseOutcome :=
  if cm.closed then .failed cm .contextManagerClosed
  else match cm.config with
    | none => .panicked
    | some _ =>
      match cm.ctxCache with
      | none => .ok { ctxCache := none, config := none, closed := true }
      | some cache =>
        match cm.closeAll cache with
        | (cm', none) => .ok { cm' with ctxCache := none, config := none, closed := true }
        | (cm', some e) => .failed cm' e

/-- One caller action on a single registry key: a `GetOrCreateContext`
call or a `ReturnContext` of the handle obtained from the registry. -/
inductive KeyOp : Type where
  | get
  | ret
  deriving DecidableEq, Repr

/-- A manager together with counters of the successful creations,
sharings and returns performed on the observed key. -/
structure RunState : Type where
  cm : ContextManager
  creates : Nat
  shares : Nat
  rets : Nat

/-- Execute one `KeyOp` on key `k` at instant `now`: a failed (or
panicking) call leaves the state as it was and counts nothing; a
successful create/share/return is counted.  Returning the handle
mutates the registered context in place, modelled by updating the
registry entry. -/
def stepKeyOp (k : String) (now : Nat) (s : RunState) : KeyOp → RunState
  | .get =>
    match s.cm.GetOrCreateContext k { contextType := k } now with
    | .ok cm' _ false => { s with cm := cm', creates := s.creates + 1 }
    | .ok cm' _ true => { s with cm := cm', shares := s.shares + 1 }
    | _ => s
  | .ret =>
    match s.cm.ctxCache with
    | none => s
    | some cache =>
      match lookupCtx cache k with
      | none => s
      | some ctx =>
        match ReturnContext (some ctx) with
        | .ok ctx' =>
          { s with cm := { s.cm with ctxCache := some (updateCtx cache k ctx') },
                   rets := s.rets + 1 }
        | .error _ => s

/-- Replay a sequence of single-key operations against a freshly
constructed manager (default configuration). -/
def runKeyOps (k : String) (now : Nat) (ops : List KeyOp) : RunState :=
  ops.foldl (stepKeyOp k now) { cm := NewContextManager none, creates := 0, shares := 0, rets := 0 }

/-- Reference count of the registry entry for `k`, if any. -/
def rcAt (s : RunState) (k : String) : Option Int :=
  (s.cm.cacheLookup k).map MemoryContext.referenceCount

/-- Active flag of the registry entry for `k`, if any. -/
def activeAt (s : RunState) (k : String) : Option Bool :=
  (s.cm.cacheLookup k).map MemoryContext.active

mutual

/-- The closed-implies-released invariant of the data model, over a
whole tree: every closed node has empty pools and children, a zero
count and a cleared active flag. -/
def MemoryContext.invB : MemoryContext → Bool
  | .node d ch =>
    (!d.closed || (d.pools.isEmpty && ch.isEmpty &&
      (d.referenceCount == 0) && !d.active)) && invListB ch

/-- `MemoryContext.invB` on every tree of a list. -/
def invListB : List MemoryContext → Bool
  | [] => true
  | c :: cs => MemoryContext.invB c && invListB cs

end

/-- The top node alone satisfies the closed-implies-released
invariant. -/
def nodeInvB (c : MemoryContext) : Bool :=
  !c.closed || (c.pools.isEmpty && c.children.isEmpty &&
    (c.referenceCount == 0) && !c.active)

/-- A fully released context as `MemoryContext.Close` leaves it:
closed, inactive, zero count, no pools, no children. -/
def clearedB (c : MemoryContext) : Bool :=
  c.closed && !c.active && (c.referenceCount == 0) &&
    c.pools.isEmpty && c.children.isEmpty

/-- Replay invariant for single-key traces: while no entry exists the
successful-operation counters balance at (or below) zero, and once an
entry exists its count is non-negative and dominates
creates + shares − returns. -/
def keyInv (k : String) (s : RunState) : Prop :=
  match s.cm.cacheLookup k with
  | none => (s.creates : Int) + (s.shares : Int) - (s.rets : Int) ≤ 0
  | some ctx =>
    0 ≤ ctx.referenceCount ∧
      (s.creates : Int) + (s.shares : Int) - (s.rets : Int) ≤ ctx.referenceCount

@[simp]
theorem MemoryContext.data_node (d : ContextData) (ch : List MemoryContext) :
    (MemoryContext.node d ch).data = d := rfl

@[simp]
theorem MemoryContext.children_node (d : ContextData) (ch : List MemoryContext) :
    (MemoryContext.node d ch).children = ch := rfl

@[simp]
theorem MemoryContext.active_node (d : ContextData) (ch : List MemoryContext) :
    (MemoryContext.node d ch).active = d.active := rfl

@[simp]
theorem MemoryContext.closed_node (d : ContextData) (ch : List MemoryContext) :
    (MemoryContext.node d ch).closed = d.closed := rfl

@[simp]
theorem MemoryContext.referenceCount_node (d : ContextData) (ch : List MemoryContext) :
    (MemoryContext.node d ch).referenceCount = d.referenceCount := rfl

@[simp]
theorem MemoryContext.pools_node (d : ContextData) (ch : List MemoryContext) :
    (MemoryContext.node d ch).pools = d.pools := rfl

@[simp]
theorem MemoryContext.lastUsed_node (d : ContextData) (ch : List MemoryContext) :
    (MemoryContext.node d ch).lastUsed = d.lastUsed := rfl

@[simp]
theorem MemoryContext.createdAt_node (d : ContextData) (ch : List MemoryContext) :
    (MemoryContext.node d ch).createdAt = d.createdAt := rfl

@[simp]
theorem MemoryContext.contextType_node (d : ContextData) (ch : List MemoryContext) :
    (MemoryContext.node d ch).contextType = d.contextType := rfl

theorem lookupCtx_append_right (l : List (String × MemoryContext)) (k : String)
    (v : MemoryContext) (h : lookupCtx l k = none) :
    lookupCtx (l ++ [(k, v)]) k = some v := by
  induction l with
  | nil => simp [lookupCtx]
  | cons e rest ih =>
    obtain ⟨k', v'⟩ := e
    by_cases hk : k' = k
    · simp [lookupCtx, hk] at h
    · simp only [lookupCtx, List.cons_append, if_neg hk] at h ⊢
      exact ih h

theorem lookupCtx_updateCtx_self (l : List (String × MemoryContext)) (k : String)
    (v v' : MemoryContext) (h : lookupCtx l k = some v) :
    lookupCtx (updateCtx l k v') k = some v' := by
  induction l with
  | nil => simp [lookupCtx] at h
  | cons e rest ih =>
    obtain ⟨k', w⟩ := e
    by_cases hk : k' = k
    · simp [lookupCtx, updateCtx, hk]
    · simp only [lookupCtx, updateCtx, if_neg hk] at h ⊢
      exact ih h

theorem lookupCtx_updateCtx_ne (l : List (String × MemoryContext)) (j k : String)
    (v' : MemoryContext) (h : j ≠ k) :
    lookupCtx (updateCtx l j v') k = lookupCtx l k := by
  induction l with
  | nil => simp [lookupCtx, updateCtx]
  | cons e rest ih =>
    obtain ⟨k', w⟩ := e
    by_cases hj : k' = j
    · subst hj
      simp [lookupCtx, updateCtx, if_neg h]
    · simp only [lookupCtx, updateCtx, if_neg hj]
      by_cases hk : k' = k
      · simp [lookupCtx, hk]
      · simp only [lookupCtx, if_neg hk]
        exact ih

theorem lookupCtx_eraseCtx_ne (l : List (String × MemoryContext)) (j k : String)
    (h : j ≠ k) :
    lookupCtx (eraseCtx l j) k = lookupCtx l k := by
  induction l with
  | nil => simp [lookupCtx, eraseCtx]
  | cons e rest ih =>
    obtain ⟨k', w⟩ := e
    by_cases hj : k' = j
    · subst hj
      simp [lookupCtx, eraseCtx, if_neg h]
    · simp only [lookupCtx, eraseCtx, if_neg hj]
      by_cases hk : k' = k
      · simp [lookupCtx, hk]
      · simp only [lookupCtx, if_neg hk]
        exact ih

theorem close_on_closed_eq (c : MemoryContext) (h : c.closed = true) :
    MemoryContext.Close c = (c, none) := by
  cases c with
  | node d ch =>
    simp only [MemoryContext.closed_node] at h
    simp [MemoryContext.Close, h]

/-- C8: `MemoryContext.Close` on an already-closed context returns no
error and leaves the context's entire state unchanged. -/
theorem close_idempotent (c : MemoryContext) (h : c.closed = true) :
    MemoryContext.Close c = (c, none) :=
  close_on_closed_eq c h

theorem close_idempotent_witness :
    MemoryContext.Close
        (.node ⟨false, true, 0, "A", [], 0, 0⟩ []) =
      ((.node ⟨false, true, 0, "A", [], 0, 0⟩ []), none) :=
  close_idempotent (.node ⟨false, true, 0, "A", [], 0, 0⟩ []) rfl

/-- C7: evaluation of the shutdown paths.  Closing a fresh manager
succeeds and leaves `ctxCache`/`config` nil and `closed = true`; a
second `Close` correctly fails with `ContextManagerClosed`; but
`GetOrCreateContext` on the shut-down manager hits the assignment to
the nil `ctxCache` map and panics instead of returning
`ContextManagerClosed`. -/
theorem manager_closed_getOrCreate_panics :
    ContextManager.Close (NewContextManager none) =
      .ok { ctxCache := none, config := none, closed := true } ∧
    ContextManager.Close { ctxCache := none, config := none, closed := true } =
      .failed { ctxCache := none, config := none, closed := true } .contextManagerClosed ∧
    ContextManager.GetOrCreateContext
        { ctxCache := none, config := none, closed := true } "A" ⟨"A"⟩ 0 = .panicked :=
  ⟨rfl, rfl, rfl⟩

/-- C3: `GetOrCreateContext` fails with `InvalidContextType` on the
empty type; with no registry entry it returns a fresh context with
count 1 and `active = true`, registered under the type, with
`wasExisting = false` and no error; with an existing entry it fails
with `ContextClosed` when that entry is closed, fails with
`MaxReferencesReached` when a positive ceiling is configured and the
count has reached it, and otherwise increments the count and returns
the entry with `wasExisting = true` and no error. -/
theorem getOrCreate_spec (cm : ContextManager) (cache : List (String × MemoryContext))
    (cfg : ContextConfig) (t : String) (mcfg : MemoryContextConfig) (now : Nat)
    (hcache : cm.ctxCache = some cache) (hcfg : cm.config = some cfg) :
    (t = "" → cm.GetOrCreateContext t mcfg now = .failed .invalidContextType) ∧
    (t ≠ "" → lookupCtx cache t = none →
      ∃ cm' ctx, cm.GetOrCreateContext t mcfg now = .ok cm' ctx false ∧
        ctx.referenceCount = 1 ∧ ctx.active = true ∧ ctx.closed = false ∧
        cm'.cacheLookup t = some ctx) ∧
    (∀ ctx, t ≠ "" → lookupCtx cache t = some ctx → ctx.closed = true →
      cm.GetOrCreateContext t mcfg now = .failed .contextClosed) ∧
    (∀ ctx, t ≠ "" → lookupCtx cache t = some ctx → ctx.closed = false →
      0 < cfg.MaxReferences → cfg.MaxReferences ≤ ctx.referenceCount →
      cm.GetOrCreateContext t mcfg now = .failed .maxReferencesReached) ∧
    (∀ ctx, t ≠ "" → lookupCtx cache t = some ctx → ctx.closed = false →
      ¬(0 < cfg.MaxReferences ∧ cfg.MaxReferences ≤ ctx.referenceCount) →
      ∃ cm' ctx', cm.GetOrCreateContext t mcfg now = .ok cm' ctx' true ∧
        ctx'.referenceCount = ctx.referenceCount + 1 ∧
        cm'.cacheLookup t = some ctx') := by
  refine ⟨?_, ?_, ?_, ?_, ?_⟩
  · intro ht
    simp [ContextManager.GetOrCreateContext, ht]
  · intro ht hl
    simp only [ContextManager.GetOrCreateContext, if_neg ht, hcache, hl, NewMemoryContext]
    refine ⟨_, _, rfl, rfl, rfl, rfl, ?_⟩
    simp only [ContextManager.cacheLookup]
    exact lookupCtx_append_right cache t _ hl
  · intro ctx ht hl hc
    simp [ContextManager.GetOrCreateContext, if_neg ht, hcache, hl, hc]
  · intro ctx ht hl hc hpos hle
    simp [ContextManager.GetOrCreateContext, if_neg ht, hcache, hl, hc, hcfg, hpos, hle]
  · intro ctx ht hl hc hnot
    obtain ⟨d, ch⟩ := ctx
    simp only [MemoryContext.closed_node] at hc
    simp only [ContextManager.GetOrCreateContext, if_neg ht, hcache, hl,
      MemoryContext.closed_node, hc, hcfg, Bool.false_eq_true, if_false, if_neg hnot]
    refine ⟨_, _, rfl, rfl, ?_⟩
    simp only [ContextManager.cacheLookup]
    exact lookupCtx_updateCtx_self cache t _ _ hl

theorem getOrCreate_spec_witness :
    ((NewContextManager none).GetOrCreateContext "" ⟨""⟩ 0 = .failed .invalidContextType) ∧
    (∃ cm' ctx, (NewContextManager none).GetOrCreateContext "A" ⟨"A"⟩ 0 = .ok cm' ctx false ∧
      ctx.referenceCount = 1 ∧ ctx.active = true ∧ ctx.closed = false ∧
      cm'.cacheLookup "A" = some ctx) := by
  refine ⟨(getOrCreate_spec (NewContextManager none) [] newDefaultConfig ""
      ⟨""⟩ 0 rfl rfl).1 rfl, ?_⟩
  exact (getOrCreate_spec (NewContextManager none) [] newDefaultConfig "A"
      ⟨"A"⟩ 0 rfl rfl).2.1 (by decide) rfl

/-- C4: `CloseContext` fails with `ContextNotFound` when the registry
has no entry for the type; fails with `ContextInUse` when the entry's
count is positive, leaving the manager (registry entry and context)
unchanged; otherwise, when the context's recursive `Close` succeeds,
it removes the entry and reports no error, the context having been
closed; and it succeeds immediately once a `ReturnContext` has brought
the count to 0. -/
theorem closeContext_spec (cm : ContextManager) (cache : List (String × MemoryContext))
    (k : String) (hcache : cm.ctxCache = some cache) :
    (lookupCtx cache k = none → cm.CloseContext k = (cm, some .contextNotFound)) ∧
    (∀ ctx, lookupCtx cache k = some ctx → 0 < ctx.referenceCount →
      cm.CloseContext k = (cm, some .contextInUse)) ∧
    (∀ ctx ctx', lookupCtx cache k = some ctx → ¬ 0 < ctx.referenceCount →
      MemoryContext.Close ctx = (ctx', none) →
      cm.CloseContext k = ({ cm with ctxCache := some (eraseCtx cache k) }, none) ∧
        ctx'.closed = true) ∧
    (∀ ctx ctx' ctx'', lookupCtx cache k = some ctx →
      ReturnContext (some ctx) = .ok ctx' → ctx'.referenceCount = 0 →
      MemoryContext.Close ctx' = (ctx'', none) →
      (ContextManager.CloseContext
          { cm with ctxCache := some (updateCtx cache k ctx') } k).2 = none) := by
  refine ⟨?_, ?_, ?_, ?_⟩
  · intro hl
    simp [ContextManager.CloseContext, hcache, hl]
  · intro ctx hl hpos
    simp [ContextManager.CloseContext, hcache, hl, hpos]
  · intro ctx ctx' hl hpos hclose
    constructor
    · simp [ContextManager.CloseContext, hcache, hl, hpos, hclose]
    · obtain ⟨d, ch⟩ := ctx
      by_cases hc : d.closed = true
      · have := close_on_closed_eq (.node d ch) hc
        rw [this] at hclose
        cases hclose
        exact hc
      · simp only [Bool.not_eq_true] at hc
        simp only [MemoryContext.Close, hc, Bool.false_eq_true, if_false] at hclose
        rcases h1 : closePools d.pools with ⟨ps', e1⟩
        rw [h1] at hclose
        cases e1 with
        | some e => simp at hclose
        | none =>
          simp only at hclose
          rcases h2 : closeChildren ch with ⟨ch', e2⟩
          rw [h2] at hclose
          cases e2 with
          | some e => simp at hclose
          | none =>
            simp only at hclose
            cases hclose
            rfl
  · intro ctx ctx' ctx'' hl hret hrc hclose
    have hl' : lookupCtx (updateCtx cache k ctx') k = some ctx' :=
      lookupCtx_updateCtx_self cache k _ _ hl
    have hpos : ¬ 0 < ctx'.referenceCount := by rw [hrc]; decide
    simp [ContextManager.CloseContext, hl', hpos, hclose]

theorem closeContext_spec_witness :
    ((NewContextManager none).CloseContext "A" =
      (NewContextManager none, some .contextNotFound)) ∧
    (ContextManager.CloseContext
        { ctxCache := some [("A", .node ⟨true, false, 2, "A", [], 0, 0⟩ [])],
          config := some newDefaultConfig, closed := false } "A" =
      ({ ctxCache := some [("A", .node ⟨true, false, 2, "A", [], 0, 0⟩ [])],
         config := some newDefaultConfig, closed := false }, some .contextInUse)) ∧
    (ContextManager.CloseContext
        { ctxCache := some [("A", .node ⟨false, false, 0, "A", [], 0, 0⟩ [])],
          config := some newDefaultConfig, closed := false } "A" =
      ({ ctxCache := some [], config := some newDefaultConfig, closed := false }, none)) := by
  refine ⟨(closeContext_spec (NewContextManager none) [] "A" rfl).1 rfl, ?_, ?_⟩
  · exact (closeContext_spec _ [("A", .node ⟨true, false, 2, "A", [], 0, 0⟩ [])] "A" rfl).2.1
      (.node ⟨true, false, 2, "A", [], 0, 0⟩ []) rfl (by decide)
  · exact ((closeContext_spec _ [("A", .node ⟨false, false, 0, "A", [], 0, 0⟩ [])] "A" rfl).2.2.1
      (.node ⟨false, false, 0, "A", [], 0, 0⟩ [])
      (.node ⟨false, true, 0, "A", [], 0, 0⟩ []) rfl (by decide) rfl).1

/-- C10 (counterexample): sharing an existing registry entry at
instant 5 leaves its `lastUsed` at 0 instead of refreshing it to the
current time, and `ReturnContext` likewise leaves `lastUsed` untouched
(here at 7), contradicting the claim that both refresh the idle
timestamp. -/
theorem lastUsed_not_refreshed_counterexample :
    ContextManager.GetOrCreateContext
        { ctxCache := some [("A", .node ⟨false, false, 0, "A", [], 0, 0⟩ [])],
          config := some newDefaultConfig, closed := false } "A" ⟨"A"⟩ 5 =
      .ok { ctxCache := some [("A", .node ⟨false, false, 1, "A", [], 0, 0⟩ [])],
            config := some newDefaultConfig, closed := false }
        (.node ⟨false, false, 1, "A", [], 0, 0⟩ []) true ∧
    (MemoryContext.lastUsed (.node ⟨false, false, 1, "A", [], 0, 0⟩ []) = 0 ∧ (0 : Nat) ≠ 5) ∧
    ReturnContext (some (.node ⟨true, false, 1, "A", [], 0, 7⟩ [])) =
      .ok (.node ⟨false, false, 0, "A", [], 0, 7⟩ []) ∧
    (MemoryContext.lastUsed (.node ⟨false, false, 0, "A", [], 0, 7⟩ []) = 7 ∧ (7 : Nat) ≠ 5) := by
  refine ⟨rfl, ⟨rfl, by decide⟩, rfl, rfl, by decide⟩

/-- C10 (amended): `lastUsed` is set only at context creation — the
create path of `GetOrCreateContext` stamps it with the current time,
while the share path, `ReturnContext`, `Acquire` and `Release` all
leave it unchanged.  No operation refreshes the idle timestamp after
creation. -/
theorem lastUsed_only_set_at_creation (cm : ContextManager)
    (cache : List (String × MemoryContext)) (cfg : ContextConfig) (t : String)
    (mcfg : MemoryContextConfig) (now : Nat)
    (hcache : cm.ctxCache = some cache) (hcfg : cm.config = some cfg) :
    (∀ cm' ctx, cm.GetOrCreateContext t mcfg now = .ok cm' ctx false →
      ctx.lastUsed = now) ∧
    (∀ ctx cm' ctx', lookupCtx cache t = some ctx →
      cm.GetOrCreateContext t mcfg now = .ok cm' ctx' true →
      ctx'.lastUsed = ctx.lastUsed) ∧
    (∀ (c c' : MemoryContext), ReturnContext (some c) = .ok c' → c'.lastUsed = c.lastUsed) ∧
    (∀ (c : MemoryContext) (ty : Nat), (c.Acquire ty).2.lastUsed = c.lastUsed ∧
      ∀ o, (c.Release ty o).2.lastUsed = c.lastUsed) := by
  refine ⟨?_, ?_, ?_, ?_⟩
  · intro cm' ctx h
    by_cases ht : t = ""
    · simp [ContextManager.GetOrCreateContext, ht] at h
    · rw [ContextManager.GetOrCreateContext] at h
      simp only [if_neg ht, hcache] at h
      cases hl : lookupCtx cache t with
      | none =>
        rw [hl] at h
        simp only [NewMemoryContext] at h
        injection h with h1 h2 h3
        subst h2
        rfl
      | some c =>
        rw [hl] at h
        by_cases hc : c.closed = true
        · simp [hc] at h
        · simp only [Bool.not_eq_true] at hc
          obtain ⟨d, ch⟩ := c
          simp only [MemoryContext.closed_node] at hc
          simp only [MemoryContext.closed_node, hc, Bool.false_eq_true, if_false, hcfg] at h
          by_cases hm : 0 < cfg.MaxReferences ∧ cfg.MaxReferences ≤ d.referenceCount
          · simp [MemoryContext.referenceCount_node, hm] at h
          · simp only [MemoryContext.referenceCount_node, if_neg hm] at h
            injection h with h1 h2 h3
            cases h3
  · intro ctx cm' ctx' hl h
    by_cases ht : t = ""
    · simp [ContextManager.GetOrCreateContext, ht] at h
    · rw [ContextManager.GetOrCreateContext] at h
      simp only [if_neg ht, hcache, hl] at h
      by_cases hc : ctx.closed = true
      · simp [hc] at h
      · simp only [Bool.not_eq_true] at hc
        obtain ⟨d, ch⟩ := ctx
        simp only [MemoryContext.closed_node] at hc
        simp only [MemoryContext.closed_node, hc, Bool.false_eq_true, if_false, hcfg] at h
        by_cases hm : 0 < cfg.MaxReferences ∧ cfg.MaxReferences ≤ d.referenceCount
        · simp [MemoryContext.referenceCount_node, hm] at h
        · simp only [MemoryContext.referenceCount_node, if_neg hm] at h
          injection h with h1 h2 h3
          subst h2
          rfl
  · intro c c' h
    obtain ⟨d, ch⟩ := c
    rw [ReturnContext] at h
    by_cases hc : d.closed = true
    · simp [hc] at h
    · simp only [Bool.not_eq_true] at hc
      simp only [hc, Bool.false_eq_true, if_false] at h
      injection h with h1
      subst h1
      rfl
  · intro c ty
    constructor
    · by_cases hc : c.closed = true
      · simp [MemoryContext.Acquire, hc]
      · simp only [MemoryContext.Acquire, hc, Bool.false_eq_true, if_false]
        cases hl : poolsLookup c.pools ty with
        | none => rfl
        | some p =>
          obtain ⟨d, ch⟩ := c
          simp [MemoryContext.setPool]
    · intro o
      by_cases hc : c.closed = true
      · simp [MemoryContext.Release, hc]
      · simp only [MemoryContext.Release, hc, Bool.false_eq_true, if_false]
        cases hl : poolsLookup c.pools ty with
        | none => rfl
        | some p =>
          by_cases hty : o.ty ≠ ty
          · simp [hty]
          · obtain ⟨d, ch⟩ := c
            simp [hty, MemoryContext.setPool]

theorem lastUsed_only_set_at_creation_witness :
    (∀ cm' ctx, (NewContextManager none).GetOrCreateContext "A" ⟨"A"⟩ 3 = .ok cm' ctx false →
      ctx.lastUsed = 3) ∧
    (MemoryContext.Acquire (.node ⟨true, false, 1, "A", [], 2, 2⟩ []) 0).2.lastUsed =
      MemoryContext.lastUsed (.node ⟨true, false, 1, "A", [], 2, 2⟩ []) := by
  refine ⟨(lastUsed_only_set_at_creation (NewContextManager none) [] newDefaultConfig
      "A" ⟨"A"⟩ 3 rfl rfl).1, ?_⟩
  exact ((lastUsed_only_set_at_creation (NewContextManager none) [] newDefaultConfig
      "A" ⟨"A"⟩ 3 rfl rfl).2.2.2 (.node ⟨true, false, 1, "A", [], 2, 2⟩ []) 0).1

/-- C1 (counterexample): from a fresh manager, the call sequence
GetOrCreate; Return; GetOrCreate on key "A" leaves the registered
top-level context with `referenceCount = 1` but `active = false`: the
increment in `GetOrCreateContext` does not recompute `active`, so a
context re-shared after its count reached 0 violates
`referenceCount > 0 ⇒ active`. -/
theorem refcount_positive_active_false_counterexample :
    rcAt (runKeyOps "A" 0 [.get, .ret, .get]) "A" = some 1 ∧
    activeAt (runKeyOps "A" 0 [.get, .ret, .get]) "A" = some false := by
  constructor <;> rfl

/-- C1 (amended): `active` equals `referenceCount > 0` immediately
after the decrement in `ReturnContext`, and creation forces
`active = true` with count 1; but the increment in
`GetOrCreateContext` leaves `active` unchanged from its prior value,
so the invariant can fail after a share (as the counterexample
shows). -/
theorem active_recomputed_only_on_return (cm : ContextManager)
    (cache : List (String × MemoryContext)) (cfg : ContextConfig) (t : String)
    (mcfg : MemoryContextConfig) (now : Nat)
    (hcache : cm.ctxCache = some cache) (hcfg : cm.config = some cfg) :
    (∀ (c c' : MemoryContext), ReturnContext (some c) = .ok c' →
      (c'.active = true ↔ 0 < c'.referenceCount)) ∧
    (∀ cm' ctx, cm.GetOrCreateContext t mcfg now = .ok cm' ctx false →
      ctx.active = true ∧ ctx.referenceCount = 1) ∧
    (∀ ctx cm' ctx', lookupCtx cache t = some ctx →
      cm.GetOrCreateContext t mcfg now = .ok cm' ctx' true →
      ctx'.active = ctx.active ∧ ctx'.referenceCount = ctx.referenceCount + 1) := by
  refine ⟨?_, ?_, ?_⟩
  · intro c c' h
    obtain ⟨d, ch⟩ := c
    rw [ReturnContext] at h
    by_cases hc : d.closed = true
    · simp [hc] at h
    · simp only [Bool.not_eq_true] at hc
      simp only [hc, Bool.false_eq_true, if_false] at h
      injection h with h1
      subst h1
      simp [decide_eq_true_iff]
  · intro cm' ctx h
    by_cases ht : t = ""
    · simp [ContextManager.GetOrCreateContext, ht] at h
    · rw [ContextManager.GetOrCreateContext] at h
      simp only [if_neg ht, hcache] at h
      cases hl : lookupCtx cache t with
      | none =>
        rw [hl] at h
        simp only [NewMemoryContext] at h
        injection h with h1 h2 h3
        subst h2
        exact ⟨rfl, rfl⟩
      | some c =>
        rw [hl] at h
        by_cases hc : c.closed = true
        · simp [hc] at h
        · simp only [Bool.not_eq_true] at hc
          obtain ⟨d, ch⟩ := c
          simp only [MemoryContext.closed_node] at hc
          simp only [MemoryContext.closed_node, hc, Bool.false_eq_true, if_false, hcfg] at h
          by_cases hm : 0 < cfg.MaxReferences ∧ cfg.MaxReferences ≤ d.referenceCount
          · simp [MemoryContext.referenceCount_node, hm] at h
          · simp only [MemoryContext.referenceCount_node, if_neg hm] at h
            injection h with h1 h2 h3
            cases h3
  · intro ctx cm' ctx' hl h
    by_cases ht : t = ""
    · simp [ContextManager.GetOrCreateContext, ht] at h
    · rw [ContextManager.GetOrCreateContext] at h
      simp only [if_neg ht, hcache, hl] at h
      by_cases hc : ctx.closed = true
      · simp [hc] at h
      · simp only [Bool.not_eq_true] at hc
        obtain ⟨d, ch⟩ := ctx
        simp only [MemoryContext.closed_node] at hc
        simp only [MemoryContext.closed_node, hc, Bool.false_eq_true, if_false, hcfg] at h
        by_cases hm : 0 < cfg.MaxReferences ∧ cfg.MaxReferences ≤ d.referenceCount
        · simp [MemoryContext.referenceCount_node, hm] at h
        · simp only [MemoryContext.referenceCount_node, if_neg hm] at h
          injection h with h1 h2 h3
          subst h2
          exact ⟨rfl, rfl⟩

theorem active_recomputed_only_on_return_witness :
    (ReturnContext (some (.node ⟨true, false, 1, "A", [], 0, 0⟩ [])) =
      .ok (.node ⟨false, false, 0, "A", [], 0, 0⟩ [])) ∧
    (MemoryContext.active (.node ⟨false, false, 0, "A", [], 0, 0⟩ []) = true ↔
      0 < MemoryContext.referenceCount (.node ⟨false, false, 0, "A", [], 0, 0⟩ [])) := by
  refine ⟨rfl, ?_⟩
  exact (active_recomputed_only_on_return (NewContextManager none) [] newDefaultConfig
      "A" ⟨"A"⟩ 0 rfl rfl).1 (.node ⟨true, false, 1, "A", [], 0, 0⟩ [])
      (.node ⟨false, false, 0, "A", [], 0, 0⟩ []) rfl

/-- C9 (counterexample): `RegisterChild` performs no closed-check, so
invoked on a closed (empty) context it appends a child, making the
children of a closed context non-empty and breaking the
closed-implies-released invariant. -/
theorem registerChild_breaks_closed_invariant :
    nodeInvB (.node ⟨false, true, 0, "A", [], 0, 0⟩ []) = true ∧
    MemoryContext.RegisterChild (.node ⟨false, true, 0, "A", [], 0, 0⟩ [])
        (.node ⟨false, false, 0, "B", [], 0, 0⟩ []) =
      .node ⟨false, true, 0, "A", [], 0, 0⟩ [.node ⟨false, false, 0, "B", [], 0, 0⟩ []] ∧
    nodeInvB (.node ⟨false, true, 0, "A", [], 0, 0⟩
        [.node ⟨false, false, 0, "B", [], 0, 0⟩ []]) = false :=
  ⟨rfl, rfl, rfl⟩

/-- C9 (amended): every operation except `RegisterChild` preserves the
invariant that a closed context has empty pools, empty children, zero
count and `active = false` — `CreateChild` and `CreatePool` fail with
`ContextClosed` on a closed receiver and preserve the invariant when
they succeed, `Acquire`, `Release`, `Close` and `ReturnContext` always
preserve it — while `RegisterChild` preserves it only when the
receiver is not closed (on a closed receiver it can make the children
non-empty, as the counterexample shows). -/
theorem closed_invariant_preservation :
    (∀ (c : MemoryContext) (now : Nat), nodeInvB c = true →
      (∀ c', c.CreateChild now = .ok c' → nodeInvB c' = true) ∧
      (c.closed = true → c.CreateChild now = .error .contextClosed)) ∧
    (∀ (c child : MemoryContext), c.closed = false →
      nodeInvB (c.RegisterChild child) = true) ∧
    (∀ (c : MemoryContext) (ty : Nat) (np : Except GoErr Pool), nodeInvB c = true →
      (∀ c', c.CreatePool ty np = .ok c' → nodeInvB c' = true) ∧
      (c.closed = true → ∀ e, c.CreatePool ty np ≠ .ok e)) ∧
    (∀ (c : MemoryContext) (ty : Nat), nodeInvB c = true →
      nodeInvB (c.Acquire ty).2 = true ∧ ∀ o, nodeInvB (c.Release ty o).2 = true) ∧
    (∀ c : MemoryContext, nodeInvB c = true → nodeInvB (MemoryContext.Close c).1 = true) ∧
    (∀ (c c' : MemoryContext), nodeInvB c = true → ReturnContext (some c) = .ok c' →
      nodeInvB c' = true) := by
  refine ⟨?_, ?_, ?_, ?_, ?_, ?_⟩
  · intro c now hinv
    constructor
    · intro c' h
      by_cases hc : c.closed = true
      · simp [MemoryContext.CreateChild, hc] at h
      · simp only [Bool.not_eq_true] at hc
        simp only [MemoryContext.CreateChild, hc, Bool.false_eq_true, if_false] at h
        injection h with h1
        subst h1
        obtain ⟨d, ch⟩ := c
        simp only [MemoryContext.closed_node] at hc
        simp [MemoryContext.RegisterChild, nodeInvB, hc]
    · intro hc
      simp [MemoryContext.CreateChild, hc]
  · intro c child hc
    obtain ⟨d, ch⟩ := c
    simp only [MemoryContext.closed_node] at hc
    simp [MemoryContext.RegisterChild, nodeInvB, hc]
  · intro c ty np hinv
    constructor
    · intro c' h
      by_cases hc : c.closed = true
      · simp [MemoryContext.CreatePool, hc] at h
      · simp only [Bool.not_eq_true] at hc
        simp only [MemoryContext.CreatePool, hc, Bool.false_eq_true, if_false] at h
        cases np with
        | error e => simp at h
        | ok p =>
          obtain ⟨d, ch⟩ := c
          simp only at h
          injection h with h1
          subst h1
          simp only [MemoryContext.closed_node] at hc
          simp [nodeInvB, hc]
    · intro hc e
      simp [MemoryContext.CreatePool, hc]
  · intro c ty hinv
    constructor
    · by_cases hc : c.closed = true
      · simpa [MemoryContext.Acquire, hc] using hinv
      · simp only [Bool.not_eq_true] at hc
        simp only [MemoryContext.Acquire, hc, Bool.false_eq_true, if_false]
        cases hl : poolsLookup c.pools ty with
        | none => exact hinv
        | some p =>
          obtain ⟨d, ch⟩ := c
          simp only [MemoryContext.closed_node] at hc
          simp [MemoryContext.setPool, nodeInvB, hc]
    · intro o
      by_cases hc : c.closed = true
      · simpa [MemoryContext.Release, hc] using hinv
      · simp only [Bool.not_eq_true] at hc
        simp only [MemoryContext.Release, hc, Bool.false_eq_true, if_false]
        cases hl : poolsLookup c.pools ty with
        | none => exact hinv
        | some p =>
          by_cases hty : o.ty ≠ ty
          · simpa [hty] using hinv
          · obtain ⟨d, ch⟩ := c
            simp only [MemoryContext.closed_node] at hc
            simp [hty, MemoryContext.setPool, nodeInvB, hc]
  · intro c hinv
    obtain ⟨d, ch⟩ := c
    by_cases hc : d.closed = true
    · rw [close_on_closed_eq (.node d ch) (by simpa [MemoryContext.closed_node] using hc)]
      exact hinv
    · simp only [Bool.not_eq_true] at hc
      simp only [MemoryContext.Close, hc, Bool.false_eq_true, if_false]
      rcases h1 : closePools d.pools with ⟨ps', e1⟩
      cases e1 with
      | some e => simp [nodeInvB, hc]
      | none =>
        simp only
        rcases h2 : closeChildren ch with ⟨ch', e2⟩
        cases e2 with
        | some e => simp [nodeInvB, hc]
        | none => simp [nodeInvB]
  · intro c c' hinv h
    obtain ⟨d, ch⟩ := c
    rw [ReturnContext] at h
    by_cases hc : d.closed = true
    · simp [hc] at h
    · simp only [Bool.not_eq_true] at hc
      simp only [hc, Bool.false_eq_true, if_false] at h
      injection h with h1
      subst h1
      simp [nodeInvB, hc]

theorem closed_invariant_preservation_witness :
    (MemoryContext.CreateChild (.node ⟨false, true, 0, "A", [], 0, 0⟩ []) 4 =
      .error .contextClosed) ∧
    nodeInvB (MemoryContext.Close (.node ⟨true, false, 2, "A", [], 0, 0⟩ [])).1 = true := by
  refine ⟨(closed_invariant_preservation.1 (.node ⟨false, true, 0, "A", [], 0, 0⟩ []) 4
      rfl).2 rfl, ?_⟩
  exact closed_invariant_preservation.2.2.2.2.1 (.node ⟨true, false, 2, "A", [], 0, 0⟩ []) rfl

theorem closePools_all_closed (ps : List (Nat × Pool)) :
    ∀ ps', closePools ps = (ps', none) → ps'.all (fun e => e.2.closed) = true := by
  induction ps with
  | nil =>
    intro ps' h
    rw [closePools] at h
    injection h with h1 h2
    subst h1
    rfl
  | cons e rest ih =>
    intro ps' h
    obtain ⟨t, p⟩ := e
    rw [closePools] at h
    by_cases hf : p.closeFails = true
    · simp [Pool.Close, hf] at h
    · simp only [Bool.not_eq_true] at hf
      simp only [Pool.Close, hf, Bool.false_eq_true, if_false] at h
      rcases hrest : closePools rest with ⟨rest', e2⟩
      rw [hrest] at h
      cases e2 with
      | some e => simp at h
      | none =>
        simp only at h
        injection h with h1 h2
        subst h1
        simp only [List.all_cons, Bool.and_eq_true]
        exact ⟨by trivial, ih rest' hrest⟩

mutual

theorem close_clears (c : MemoryContext) :
    MemoryContext.invB c = true → ∀ c', MemoryContext.Close c = (c', none) →
      clearedB c' = true := by
  cases c with
  | node d ch =>
    intro hinv c' h
    by_cases hc : d.closed = true
    · rw [close_on_closed_eq (.node d ch)
        (by simp [MemoryContext.closed_node, hc])] at h
      injection h with h1 h2
      subst h1
      simp only [MemoryContext.invB, hc, Bool.not_true, Bool.false_or,
        Bool.and_eq_true] at hinv
      simp [clearedB, hc, hinv.1.1.1, hinv.1.1.2, hinv.1.2, hinv.2]
    · simp only [Bool.not_eq_true] at hc
      simp only [MemoryContext.Close, hc, Bool.false_eq_true, if_false] at h
      rcases h1 : closePools d.pools with ⟨ps', e1⟩
      rw [h1] at h
      cases e1 with
      | some e => simp at h
      | none =>
        simp only at h
        rcases h2 : closeChildren ch with ⟨ch', e2⟩
        rw [h2] at h
        cases e2 with
        | some e => simp at h
        | none =>
          simp only at h
          injection h with h1' h2'
          subst h1'
          rfl

theorem closeChildren_clears (cs : List MemoryContext) :
    invListB cs = true → ∀ cs', closeChildren cs = (cs', none) →
      cs'.all clearedB = true := by
  cases cs with
  | nil =>
    intro hinv cs' h
    rw [closeChildren] at h
    injection h with h1 h2
    subst h1
    rfl
  | cons c rest =>
    intro hinv cs' h
    simp only [invListB, Bool.and_eq_true] at hinv
    rw [closeChildren] at h
    rcases hc : MemoryContext.Close c with ⟨c1, e1⟩
    rw [hc] at h
    cases e1 with
    | some e => simp at h
    | none =>
      simp only at h
      rcases hrest : closeChildren rest with ⟨rest', e2⟩
      rw [hrest] at h
      cases e2 with
      | some e => simp at h
      | none =>
        simp only at h
        injection h with h1 h2
        subst h1
        simp only [List.all_cons, Bool.and_eq_true]
        exact ⟨close_clears c hinv.1 c1 hc, closeChildren_clears rest hinv.2 rest' hrest⟩

end

/-- C6 (counterexample): a context that is already closed but carries
an open child (reachable by `RegisterChild` after its `Close`, which
performs no closed-check) is closed "successfully" — `Close` returns
no error — yet its descendant stays open, refuting the claim that
after every successful `Close` every descendant is closed. -/
theorem close_success_open_descendant_counterexample :
    MemoryContext.Close (.node ⟨false, true, 0, "A", [], 0, 0⟩
        [.node ⟨false, false, 0, "A", [], 0, 0⟩ []]) =
      (.node ⟨false, true, 0, "A", [], 0, 0⟩
        [.node ⟨false, false, 0, "A", [], 0, 0⟩ []], none) ∧
    (MemoryContext.children (.node ⟨false, true, 0, "A", [], 0, 0⟩
        [.node ⟨false, false, 0, "A", [], 0, 0⟩ []])).all
      (fun d => d.closed) = false :=
  ⟨rfl, rfl⟩

/-- C6 (amended): on a tree satisfying the closed-implies-released
invariant (every already-closed node has empty pools and children), a
successful `Close` leaves the context closed, inactive, with zero
count and cleared pools and children; every pool it owned has been
closed, and every child subtree has been recursively closed and
cleared at every depth.  Without the invariant hypothesis the claim
fails, because `Close` on an already-closed node succeeds without
touching children attached after it closed. -/
theorem close_success_closes_all (c c' : MemoryContext)
    (hinv : MemoryContext.invB c = true) (h : MemoryContext.Close c = (c', none)) :
    (c'.closed = true ∧ c'.active = false ∧ c'.referenceCount = 0 ∧
      c'.pools.isEmpty = true ∧ c'.children.isEmpty = true) ∧
    ((closePools c.pools).2 = none ∧
      ((closePools c.pools).1).all (fun e => e.2.closed) = true) ∧
    ((closeChildren c.children).2 = none ∧
      ((closeChildren c.children).1).all clearedB = true) := by
  have hcl := close_clears c hinv c' h
  simp only [clearedB, Bool.and_eq_true, Bool.not_eq_true', beq_iff_eq] at hcl
  refine ⟨⟨hcl.1.1.1.1, hcl.1.1.1.2, hcl.1.1.2, hcl.1.2, hcl.2⟩, ?_⟩
  obtain ⟨d, ch⟩ := c
  by_cases hc : d.closed = true
  · simp only [MemoryContext.invB, hc, Bool.not_true, Bool.false_or,
      Bool.and_eq_true] at hinv
    have hpools : d.pools = [] := List.isEmpty_iff.mp hinv.1.1.1.1
    have hch : ch = [] := List.isEmpty_iff.mp hinv.1.1.1.2
    subst hch
    simp [MemoryContext.pools, MemoryContext.data, hpools, closePools, closeChildren]
  · simp only [Bool.not_eq_true] at hc
    simp only [MemoryContext.Close, hc, Bool.false_eq_true, if_false] at h
    rcases h1 : closePools d.pools with ⟨ps', e1⟩
    rw [h1] at h
    cases e1 with
    | some e => simp at h
    | none =>
      simp only at h
      rcases h2 : closeChildren ch with ⟨ch', e2⟩
      rw [h2] at h
      cases e2 with
      | some e => simp at h
      | none =>
        have hinvch : invListB ch = true := by
          simp only [MemoryContext.invB, Bool.and_eq_true] at hinv
          exact hinv.2
        simp only [MemoryContext.pools_node, MemoryContext.children_node, h1, h2]
        exact ⟨⟨by trivial, closePools_all_closed d.pools ps' h1⟩,
          by trivial, closeChildren_clears ch hinvch ch' h2⟩

theorem close_success_closes_all_witness :
    MemoryContext.invB (.node ⟨false, false, 0, "A", [(1, ⟨1, [], false, false⟩)], 0, 0⟩
      [.node ⟨false, false, 0, "A", [(2, ⟨2, [], false, false⟩)], 0, 0⟩ []]) = true ∧
    ((closeChildren (MemoryContext.children
        (.node ⟨false, false, 0, "A", [(1, ⟨1, [], false, false⟩)], 0, 0⟩
          [.node ⟨false, false, 0, "A", [(2, ⟨2, [], false, false⟩)], 0, 0⟩ []]))).1).all
      clearedB = true := by
  refine ⟨rfl, ?_⟩
  exact (close_success_closes_all
    (.node ⟨false, false, 0, "A", [(1, ⟨1, [], false, false⟩)], 0, 0⟩
      [.node ⟨false, false, 0, "A", [(2, ⟨2, [], false, false⟩)], 0, 0⟩ []])
    (.node ⟨false, true, 0, "A", [], 0, 0⟩ []) rfl rfl).2.2.2

theorem closeContext_cacheLookup_ne (cm : ContextManager) (j k : String) (h : j ≠ k) :
    ((cm.CloseContext j).1).cacheLookup k = cm.cacheLookup k := by
  cases hc : cm.ctxCache with
  | none => simp [ContextManager.CloseContext, hc]
  | some cache =>
    cases hl : lookupCtx cache j with
    | none => simp [ContextManager.CloseContext, hc, hl]
    | some ctx =>
      by_cases hpos : 0 < ctx.referenceCount
      · simp [ContextManager.CloseContext, hc, hl, hpos]
      · rcases hcl : MemoryContext.Close ctx with ⟨ctx', e⟩
        cases e with
        | none =>
          simp only [ContextManager.CloseContext, hc, hl, if_neg hpos, hcl,
            ContextManager.cacheLookup]
          exact lookupCtx_eraseCtx_ne cache j k h
        | some e' =>
          simp only [ContextManager.CloseContext, hc, hl, if_neg hpos, hcl,
            ContextManager.cacheLookup]
          exact lookupCtx_updateCtx_ne cache j k ctx' h

theorem closeContext_inUse (cm : ContextManager) (k : String) (ctx : MemoryContext)
    (hl : cm.cacheLookup k = some ctx) (hpos : 0 < ctx.referenceCount) :
    cm.CloseContext k = (cm, some .contextInUse) := by
  cases hc : cm.ctxCache with
  | none => simp [ContextManager.cacheLookup, hc] at hl
  | some cache =>
    simp only [ContextManager.cacheLookup, hc] at hl
    simp [ContextManager.CloseContext, hc, hl, hpos]

theorem nodup_lookup_unique (l : List (String × MemoryContext)) (k : String)
    (v : MemoryContext) (hnd : (l.map Prod.fst).Nodup) (hl : lookupCtx l k = some v) :
    ∀ c, (k, c) ∈ l → c = v := by
  induction l with
  | nil => intro c hc; simp at hc
  | cons e rest ih =>
    obtain ⟨k', v'⟩ := e
    simp only [List.map_cons, List.nodup_cons] at hnd
    intro c hc
    rcases List.mem_cons.mp hc with h1 | h2
    · injection h1 with hk hv
      subst hk
      rw [lookupCtx, if_pos rfl] at hl
      injection hl with hlv
      rw [hv, hlv]
    · by_cases hk : k' = k
      · subst hk
        exact absurd (by simpa using List.mem_map_of_mem Prod.fst h2) hnd.1
      · rw [lookupCtx, if_neg hk] at hl
        exact ih hnd.2 hl c h2

theorem cleanup_fold_preserve (cfg : ContextConfig) (now : Nat) (k : String)
    (ctx : MemoryContext)
    (hkeep : 0 < ctx.referenceCount ∨
      ¬(ctx.active = false ∧ cfg.MaxIdleTime < (now : Int) - (ctx.lastUsed : Int))) :
    ∀ (l : List (String × MemoryContext)) (acc : ContextManager),
      (∀ c, (k, c) ∈ l → c = ctx) →
      acc.cacheLookup k = some ctx →
      (l.foldl
        (fun acc e =>
          if e.2.active = false ∧ cfg.MaxIdleTime < (now : Int) - (e.2.lastUsed : Int) then
            (acc.CloseContext e.1).1
          else acc) acc).cacheLookup k = some ctx := by
  intro l
  induction l with
  | nil => intro acc _ hacc; exact hacc
  | cons e rest ih =>
    intro acc hmem hacc
    obtain ⟨j, cj⟩ := e
    rw [List.foldl_cons]
    refine ih _ (fun c hc => hmem c (List.mem_cons_of_mem _ hc)) ?_
    by_cases hj : j = k
    · subst hj
      have hcj : cj = ctx := hmem cj (List.mem_cons_self _ _)
      subst hcj
      by_cases hcond : cj.active = false ∧ cfg.MaxIdleTime < (now : Int) - (cj.lastUsed : Int)
      · rcases hkeep with hpos | hnc
        · rw [if_pos hcond, closeContext_inUse acc j cj hacc hpos]
          exact hacc
        · exact absurd hcond hnc
      · rw [if_neg hcond]
        exact hacc
    · by_cases hcond : cj.active = false ∧ cfg.MaxIdleTime < (now : Int) - (cj.lastUsed : Int)
      · rw [if_pos hcond, closeContext_cacheLookup_ne acc j k hj]
        exact hacc
      · rw [if_neg hcond]
        exact hacc

/-- C2: a reaper tick (`cleanupIdleContexts`) leaves a registry entry
with a positive reference count untouched regardless of how long it
has been idle, and it affects an entry at all (closing/removing it or
mutating it) only when the entry's `active` flag is false and the
elapsed time since `lastUsed` exceeds `MaxIdleTime`. -/
theorem cleanup_reaps_only_idle_inactive (cm : ContextManager) (cfg : ContextConfig)
    (now : Nat) (k : String) (ctx : MemoryContext)
    (hcfg : cm.config = some cfg) (hnodup : cm.cacheKeysNodup)
    (hl : cm.cacheLookup k = some ctx) :
    (0 < ctx.referenceCount → (cm.cleanupIdleContexts now).cacheLookup k = some ctx) ∧
    ((cm.cleanupIdleContexts now).cacheLookup k ≠ some ctx →
      ctx.active = false ∧ cfg.MaxIdleTime < (now : Int) - (ctx.lastUsed : Int)) := by
  cases hc : cm.ctxCache with
  | none => simp [ContextManager.cacheLookup, hc] at hl
  | some cache =>
    have hlc : lookupCtx cache k = some ctx := by
      simpa [ContextManager.cacheLookup, hc] using hl
    have hmem : ∀ c, (k, c) ∈ cache → c = ctx := by
      refine nodup_lookup_unique cache k ctx ?_ hlc
      simpa [ContextManager.cacheKeysNodup, hc] using hnodup
    have hfold : ∀ hkeep : 0 < ctx.referenceCount ∨
        ¬(ctx.active = false ∧ cfg.MaxIdleTime < (now : Int) - (ctx.lastUsed : Int)),
        (cm.cleanupIdleContexts now).cacheLookup k = some ctx := by
      intro hkeep
      rw [ContextManager.cleanupIdleContexts, hc, hcfg]
      exact cleanup_fold_preserve cfg now k ctx hkeep cache cm hmem hl
    constructor
    · intro hpos
      exact hfold (Or.inl hpos)
    · intro hchanged
      by_cases hcond : ctx.active = false ∧ cfg.MaxIdleTime < (now : Int) - (ctx.lastUsed : Int)
      · exact hcond
      · exact absurd (hfold (Or.inr hcond)) hchanged

theorem cleanup_reaps_only_idle_inactive_witness :
    ContextManager.cacheLookup
      (ContextManager.cleanupIdleContexts
        { ctxCache := some [("A", .node ⟨true, false, 1, "A", [], 0, 0⟩ [])],
          config := some newDefaultConfig, closed := false } 999999999999) "A" =
      some (.node ⟨true, false, 1, "A", [], 0, 0⟩ []) := by
  exact (cleanup_reaps_only_idle_inactive
    { ctxCache := some [("A", .node ⟨true, false, 1, "A", [], 0, 0⟩ [])],
      config := some newDefaultConfig, closed := false }
    newDefaultConfig 999999999999 "A" (.node ⟨true, false, 1, "A", [], 0, 0⟩ [])
    rfl (by simp [ContextManager.cacheKeysNodup]) rfl).1 (by decide)

theorem stepKeyOp_preserves_keyInv (k : String) (now : Nat) (s : RunState) (op : KeyOp)
    (h : keyInv k s) : keyInv k (stepKeyOp k now s op) := by
  cases op with
  | get =>
    by_cases hk : k = ""
    · have hs : stepKeyOp k now s .get = s := by
        simp [stepKeyOp, ContextManager.GetOrCreateContext, hk]
      rw [hs]
      exact h
    · cases hc : s.cm.ctxCache with
      | none =>
        have hs : stepKeyOp k now s .get = s := by
          simp [stepKeyOp, ContextManager.GetOrCreateContext, if_neg hk, hc]
        rw [hs]
        exact h
      | some cache =>
        cases hl : lookupCtx cache k with
        | none =>
          have hg : s.cm.GetOrCreateContext k ⟨k⟩ now =
              GocOutcome.ok
                ⟨some (cache ++ [(k, MemoryContext.node ⟨true, false, 1, k, [], now, now⟩ [])]),
                  s.cm.config, s.cm.closed⟩
                (MemoryContext.node ⟨true, false, 1, k, [], now, now⟩ []) false := by
            simp [ContextManager.GetOrCreateContext, if_neg hk, hc, hl, NewMemoryContext]
          simp only [stepKeyOp, hg]
          simp only [keyInv, ContextManager.cacheLookup, hc, hl] at h
          simp only [keyInv, ContextManager.cacheLookup,
            lookupCtx_append_right cache k _ hl]
          simp only [MemoryContext.referenceCount_node]
          push_cast
          exact ⟨trivial, by omega⟩
        | some ctx =>
          by_cases hcl : ctx.closed = true
          · have hs : stepKeyOp k now s .get = s := by
              simp [stepKeyOp, ContextManager.GetOrCreateContext, if_neg hk, hc, hl, hcl]
            rw [hs]
            exact h
          · simp only [Bool.not_eq_true] at hcl
            obtain ⟨d, ch⟩ := ctx
            simp only [MemoryContext.closed_node] at hcl
            cases hcfg : s.cm.config with
            | none =>
              have hs : stepKeyOp k now s .get = s := by
                simp [stepKeyOp, ContextManager.GetOrCreateContext, if_neg hk, hc, hl,
                  MemoryContext.closed_node, hcl, hcfg]
              rw [hs]
              exact h
            | some cfg =>
              by_cases hm : 0 < cfg.MaxReferences ∧ cfg.MaxReferences ≤ d.referenceCount
              · have hs : stepKeyOp k now s .get = s := by
                  simp [stepKeyOp, ContextManager.GetOrCreateContext, if_neg hk, hc, hl,
                    MemoryContext.closed_node, hcl, hcfg,
                    MemoryContext.referenceCount_node, hm]
                rw [hs]
                exact h
              · have hg : s.cm.GetOrCreateContext k ⟨k⟩ now =
                    GocOutcome.ok
                      ⟨some (updateCtx cache k
                          (MemoryContext.node { d with referenceCount := d.referenceCount + 1 } ch)),
                        s.cm.config, s.cm.closed⟩
                      (MemoryContext.node { d with referenceCount := d.referenceCount + 1 } ch)
                      true := by
                  simp [ContextManager.GetOrCreateContext, if_neg hk, hc, hl,
                    MemoryContext.closed_node, hcl, hcfg,
                    MemoryContext.referenceCount_node, if_neg hm]
                simp only [stepKeyOp, hg]
                simp only [keyInv, ContextManager.cacheLookup, hc, hl] at h
                simp only [keyInv, ContextManager.cacheLookup,
                  lookupCtx_updateCtx_self cache k _ _ hl]
                simp only [MemoryContext.referenceCount_node] at h ⊢
                push_cast
                omega
  | ret =>
    cases hc : s.cm.ctxCache with
    | none =>
      simp only [stepKeyOp, hc]
      exact h
    | some cache =>
      cases hl : lookupCtx cache k with
      | none =>
        simp only [stepKeyOp, hc, hl]
        exact h
      | some ctx =>
        obtain ⟨d, ch⟩ := ctx
        by_cases hcl : d.closed = true
        · have hs : stepKeyOp k now s .ret = s := by
            simp [stepKeyOp, hc, hl, ReturnContext, hcl]
          rw [hs]
          exact h
        · simp only [Bool.not_eq_true] at hcl
          have hr : ReturnContext (some (.node d ch)) =
              .ok (MemoryContext.node
                { d with
                  referenceCount :=
                    if 0 < d.referenceCount then d.referenceCount - 1 else d.referenceCount,
                  active := decide (0 <
                    if 0 < d.referenceCount then d.referenceCount - 1
                    else d.referenceCount) } ch) := by
            simp [ReturnContext, hcl]
          simp only [stepKeyOp, hc, hl, hr]
          simp only [keyInv, ContextManager.cacheLookup, hc, hl] at h
          simp only [keyInv, ContextManager.cacheLookup,
            lookupCtx_updateCtx_self cache k _ _ hl]
          simp only [MemoryContext.referenceCount_node] at h ⊢
          by_cases hpos : 0 < d.referenceCount
          · simp only [if_pos hpos]
            push_cast
            omega
          · simp only [if_neg hpos]
            push_cast
            omega

theorem runKeyOps_keyInv (k : String) (now : Nat) (ops : List KeyOp) :
    keyInv k (runKeyOps k now ops) := by
  have hstep : ∀ (l : List KeyOp) (s : RunState), keyInv k s →
      keyInv k (l.foldl (stepKeyOp k now) s) := by
    intro l
    induction l with
    | nil => intro s hs; exact hs
    | cons op rest ih =>
      intro s hs
      rw [List.foldl_cons]
      exact ih _ (stepKeyOp_preserves_keyInv k now s op hs)
  refine hstep ops _ ?_
  simp [keyInv, ContextManager.cacheLookup, NewContextManager, lookupCtx]

/-- C5 (counterexample): the four-call sequence GetOrCreate; Return;
Return; GetOrCreate on one key — every call succeeding — ends with
reference count 1, while creates + shares − returns clipped at zero is
max 0 (1 + 1 − 2) = 0: the second Return was a successful no-op on a
zero count, so the end-clipped formula undercounts and the claimed
equality fails. -/
theorem refcount_formula_counterexample :
    rcAt (runKeyOps "A" 0 [.get, .ret, .ret, .get]) "A" = some 1 ∧
    (runKeyOps "A" 0 [.get, .ret, .ret, .get]).creates = 1 ∧
    (runKeyOps "A" 0 [.get, .ret, .ret, .get]).shares = 1 ∧
    (runKeyOps "A" 0 [.get, .ret, .ret, .get]).rets = 2 ∧
    max (0 : Int) (1 + 1 - 2) = 0 ∧ (1 : Int) ≠ 0 := by
  refine ⟨rfl, rfl, rfl, rfl, by decide, by decide⟩

/-- C5 (amended): over every finite sequence of GetOrCreateContext and
ReturnContext calls on one key, the reference count stays ≥ 0 and is
at least creates + shares − returns (hence at least that quantity
clipped at zero); and ReturnContext on an open context whose count is
already 0 leaves the count at 0 (the decrement on zero is a no-op).
Exact equality with the end-clipped formula does not hold, because a
successful return on a zero count is counted yet decrements
nothing (see the counterexample). -/
theorem refcount_nonneg_and_dominates (k : String) (now : Nat) (ops : List KeyOp) :
    (∀ ctx, (runKeyOps k now ops).cm.cacheLookup k = some ctx →
      0 ≤ ctx.referenceCount ∧
      ((runKeyOps k now ops).creates : Int) + ((runKeyOps k now ops).shares : Int)
        - ((runKeyOps k now ops).rets : Int) ≤ ctx.referenceCount) ∧
    (∀ (c c' : MemoryContext), c.closed = false → c.referenceCount = 0 →
      ReturnContext (some c) = .ok c' → c'.referenceCount = 0) := by
  constructor
  · intro ctx hctx
    have hinv := runKeyOps_keyInv k now ops
    rw [keyInv, hctx] at hinv
    exact hinv
  · intro c c' hcl hrc h
    obtain ⟨d, ch⟩ := c
    simp only [MemoryContext.closed_node] at hcl
    simp only [MemoryContext.referenceCount_node] at hrc
    simp only [ReturnContext, hcl, Bool.false_eq_true, if_false, hrc] at h
    injection h with h1
    subst h1
    simp [hrc]

theorem refcount_nonneg_and_dominates_witness :
    (0 ≤ MemoryContext.referenceCount (.node ⟨true, false, 1, "A", [], 0, 0⟩ []) ∧
      ((runKeyOps "A" 0 [.get]).creates : Int) + ((runKeyOps "A" 0 [.get]).shares : Int)
        - ((runKeyOps "A" 0 [.get]).rets : Int) ≤
        MemoryContext.referenceCount (.node ⟨true, false, 1, "A", [], 0, 0⟩ [])) ∧
    MemoryContext.referenceCount
      (.node ⟨false, false, 0, "A", [], 0, 0⟩ []) = 0 := by
  constructor
  · exact (refcount_nonneg_and_dominates "A" 0 [.get]).1
      (.node ⟨true, false, 1, "A", [], 0, 0⟩ []) rfl
  · exact (refcount_nonneg_and_dominates "A" 0 [.get]).2
      (.node ⟨true, false, 0, "A", [], 0, 0⟩ [])
      (.node ⟨false, false, 0, "A", [], 0, 0⟩ []) rfl rfl rfl
